import Mathlib

/-!
Verification of the context & memory subsystem of the agentic-playground
repository.  The Python sources are shallowly embedded: strings are lists of
characters, wall-clock instants and message timestamps are rational numbers of
hours, float scores are exact reals/rationals, and the SQLite store is a pure
record of rows plus a full-text index whose match predicate is kept abstract.
-/

/-- Characters Python's `\s` regex class matches (ASCII model). -/
def isPySpace (c : Char) : Bool :=
  c = ' ' || c = '\t' || c = '\n' || c = '\r' || c = '\x0b' || c = '\x0c'

/-- Characters of Python's `\w` regex class (ASCII model). -/
def isWordChar (c : Char) : Bool :=
  c.isAlphanum || c = '_'

/-- Lowercase every character, modelling `str.lower()` on ASCII text. -/
def lowerChars (cs : List Char) : List Char :=
  cs.map Char.toLower

/-- Does `pat` occur at the start of `s`?  (Helper for substring tests.) -/
def startsWithChars : List Char → List Char → Bool
  | [], _ => true
  | _ :: _, [] => false
  | p :: ps, c :: cs => p = c && startsWithChars ps cs

/-- Python's `pat in s` substring containment. -/
def isSubstr (pat : List Char) : List Char → Bool
  | [] => startsWithChars pat []
  | c :: cs => startsWithChars pat (c :: cs) || isSubstr pat cs

/-- Generic stable insertion into a sorted list: `bf x y` means `x` must come
strictly before `y`; on ties the new element goes after existing ones, which
matches the stability of Python's `list.sort`. -/
def insertComp {α : Type} (bf : α → α → Bool) (x : α) : List α → List α
  | [] => [x]
  | y :: ys => if bf x y then x :: y :: ys else y :: insertComp bf x ys

/-- Stable insertion sort driven by the strict "comes before" test `bf`,
modelling Python's stable `sort(key=..., reverse=True)`. -/
def insSort {α : Type} (bf : α → α → Bool) (l : List α) : List α :=
  l.foldl (fun acc x => insertComp bf x acc) []

-- ---------------------------------------------------------------------------
-- memory/utils/tokens.py
-- ---------------------------------------------------------------------------

/-- `estimate_tokens` from memory/utils/tokens.py: 0 for empty text, otherwise
`max(1, len(text) // 4)`. -/
def estimate_tokens (text : List Char) : ℕ :=
  if text = [] then 0
  else max 1 (text.length / 4)

/-- A conversation message: `{role, content, timestamp?}`.  Timestamps are
rational hours; a missing `"timestamp"` key is `none`. -/
structure Message where
  role : List Char
  content : List Char
  timestamp : Option ℚ
deriving DecidableEq

/-- `estimate_tokens_for_messages` from memory/utils/tokens.py: 0 for the empty
list, otherwise the accumulated `role + content + 10` per message plus the
conversation overhead 5. -/
def estimate_tokens_for_messages (messages : List Message) : ℕ :=
  if messages = [] then 0
  else
    messages.foldl
      (fun total m => total + (estimate_tokens m.role + estimate_tokens m.content + 10)) 0
      + 5

-- ---------------------------------------------------------------------------
-- memory/importance.py : content importance
-- ---------------------------------------------------------------------------

/-- The fixed `high_importance_keywords` list of `_calculate_content_importance`. -/
def highImportanceKeywords : List (List Char) :=
  ["error".data, "exception".data, "failed".data, "bug".data, "issue".data,
   "important".data, "critical".data, "urgent".data,
   "decided".data, "decision".data, "conclusion".data,
   "summary".data, "key point".data, "note that".data,
   "remember".data, "don't forget".data]

/-- The backquote character used by the code-marker test. -/
def backquoteChar : Char := Char.ofNat 96

def tripleBackquote : List Char := [backquoteChar, backquoteChar, backquoteChar]

def httpMarker : List Char := "http://".data

def httpsMarker : List Char := "https://".data

/-- `max(0.0, min(1.0, x))`, written with decidable comparisons so that the
kernel can evaluate it on concrete rationals. -/
def clampQ (x : ℚ) : ℚ :=
  if x < 0 then 0 else if 1 < x then 1 else x

/-- Is `c` one of the characters of the regex class `[-*\\d]`? -/
def isListMarkChar (c : Char) : Bool :=
  c = '-' || c = '*' || c.isDigit

/-- Does `\s*[-*\d]+\.` match at this position?  Greedy matching is exact here
because the three character classes involved are pairwise disjoint. -/
def listPatternAt (cs : List Char) : Bool :=
  let rest := cs.dropWhile isPySpace
  let run := rest.takeWhile isListMarkChar
  let tail := rest.dropWhile isListMarkChar
  !run.isEmpty && tail.headD ' ' = '.' && !tail.isEmpty

/-- `re.search(r'^\s*[-*\d]+\.', content, re.MULTILINE)`: the pattern must
match at the start of the string or just after some newline. -/
def hasListLine (cs : List Char) : Bool :=
  listPatternAt cs || go cs
where
  go : List Char → Bool
    | [] => false
    | c :: rest => (c = '\n' && listPatternAt rest) || go rest

/-- `_calculate_content_importance` from memory/importance.py, with float
arithmetic modelled exactly over ℚ. -/
def calculate_content_importance (content : List Char) : ℚ :=
  if content = [] then 0
  else
    let contentLower := lowerChars content
    let s0 : ℚ := 1/2
    let s1 := highImportanceKeywords.foldl
      (fun s kw => if isSubstr kw contentLower then s + 1/10 else s) s0
    let s2 := if content.contains '?' then s1 + 3/20 else s1
    let s3 := if isSubstr tripleBackquote content || isSubstr [backquoteChar] content
              then s2 + 1/10 else s2
    let s4 := if hasListLine content then s3 + 1/20 else s3
    let s5 := if isSubstr httpMarker content || isSubstr httpsMarker content
              then s4 + 1/20 else s4
    let s6 := if 500 < content.length then s5 + 1/20 else s5
    let s7 := if content.length < 20 then s6 - 1/10 else s6
    clampQ s7

-- ---------------------------------------------------------------------------
-- memory/importance.py : combined score
-- ---------------------------------------------------------------------------

/-- The role lookup `{user: 1.0, system: 0.9, assistant: 0.7}.get(role.lower(), 0.7)`. -/
noncomputable def roleFactor (role : List Char) : ℝ :=
  let r := lowerChars role
  if r = "user".data then 1
  else if r = "system".data then 9/10
  else if r = "assistant".data then 7/10
  else 7/10

/-- `calculate_importance_score` from memory/importance.py.  `timestamp` and
`currentTime` are instants in hours, so the code's
`(current_time - timestamp).total_seconds() / 3600` is `currentTime - timestamp`. -/
noncomputable def calculate_importance_score (content role : List Char)
    (timestamp currentTime : ℚ) (hasReplies : Bool) : ℝ :=
  let timeDiffHours : ℝ := ((currentTime - timestamp : ℚ) : ℝ)
  let recencyFactor := Real.exp (-timeDiffHours / 24)
  let contentImportance : ℝ := (calculate_content_importance content : ℝ)
  let interactionFactor : ℝ := if hasReplies then 1 else 1/2
  let rf := roleFactor role
  let score :=
    recencyFactor * (3/10) + contentImportance * (4/10) +
    interactionFactor * (2/10) + rf * (1/10)
  max 0 (min 1 score)

-- ---------------------------------------------------------------------------
-- memory/importance.py : select_messages_to_prune
-- ---------------------------------------------------------------------------

/-- Strict "scores strictly higher" test between `(index, score)` pairs, used
by the stable descending sort of `select_messages_to_prune`. -/
noncomputable def scoreGT (x y : ℕ × ℝ) : Bool :=
  if y.2 < x.2 then true else false

/-- Is index `i` protected inside a list of length `n`: a system message while
`always_keep_system` is set, or one of the last `always_keep_recent` positions. -/
def protectedPair (alwaysKeepSystem : Bool) (alwaysKeepRecent n : ℕ)
    (p : ℕ × Message) : Bool :=
  (alwaysKeepSystem && p.2.role = "system".data) || decide (n - alwaysKeepRecent ≤ p.1)

/-- Keep the messages whose index is not listed in `toRemove`
(`[msg for idx, msg in enumerate(messages) if idx not in to_remove_indices]`). -/
def removeByIndex (messages : List Message) (toRemove : List ℕ) : List Message :=
  (messages.enum.filter (fun p => decide (p.1 ∉ toRemove))).map (fun p => p.2)

/-- `select_messages_to_prune` from memory/importance.py.  Returns the indices
to remove.  `now` stands for the single `datetime.utcnow()` instant of the
call; a message without a timestamp is scored at `now` (zero age). -/
noncomputable def select_messages_to_prune (now : ℚ) (messages : List Message)
    (keepCount : ℕ) (alwaysKeepRecent : ℕ) (alwaysKeepSystem : Bool) : List ℕ :=
  let n := messages.length
  if n ≤ keepCount then []
  else
    let prot := protectedPair alwaysKeepSystem alwaysKeepRecent n
    let protectedCount := (messages.enum.filter prot).length
    let remainingSlots : ℤ := (keepCount : ℤ) - protectedCount
    let unprotected := messages.enum.filter (fun p => !prot p)
    if remainingSlots ≤ 0 then unprotected.map (fun p => p.1)
    else if unprotected = [] then []
    else
      let scored := unprotected.map (fun p =>
        (p.1, calculate_importance_score p.2.content p.2.role
                (p.2.timestamp.getD now) now false))
      let sorted := insSort scoreGT scored
      let keepIndices := (sorted.take remainingSlots.toNat).map (fun q => q.1)
      (unprotected.map (fun p => p.1)).filter (fun i => decide (i ∉ keepIndices))

-- ---------------------------------------------------------------------------
-- memory/context.py
-- ---------------------------------------------------------------------------

/-- Configuration of `ContextManager.__init__`. -/
structure Config where
  maxTokens : ℕ
  bufferTokens : ℕ
  alwaysKeepRecent : ℕ
  alwaysKeepSystem : Bool
deriving DecidableEq

/-- `self.effective_max_tokens = max_tokens - buffer_tokens` (a Python int,
hence possibly negative). -/
def Config.effectiveMaxTokens (cfg : Config) : ℤ :=
  (cfg.maxTokens : ℤ) - cfg.bufferTokens

/-- Number of messages with role `"system"`, as counted by
`sum(1 for msg in messages if msg.get("role") == "system")`. -/
def countSystem (messages : List Message) : ℕ :=
  (messages.filter (fun m => m.role = "system".data)).length

/-- The descending candidate sizes `range(max_keep, min_keep - 1, -1)`. -/
def countdown (hi lo : ℕ) : List ℕ :=
  (List.range' lo (hi + 1 - lo)).reverse

/-- First element of `ks` satisfying `p`, else `dflt`: the `for ... break`
search of `_prune_messages` with `best_keep` initialised to the default. -/
def firstFit (p : ℕ → Bool) : List ℕ → ℕ → ℕ
  | [], dflt => dflt
  | k :: ks, dflt => if p k then k else firstFit p ks dflt

/-- The pruned list `_prune_messages` would build for candidate size `keep`. -/
noncomputable def prunedAt (cfg : Config) (now : ℚ) (messages : List Message)
    (keep : ℕ) : List Message :=
  removeByIndex messages
    (select_messages_to_prune now messages keep cfg.alwaysKeepRecent cfg.alwaysKeepSystem)

/-- `ContextManager._prune_messages`: returns the pruned message list and the
number of removed messages. -/
noncomputable def prune_messages (cfg : Config) (now : ℚ) (messages : List Message) :
    List Message × ℕ :=
  if messages = [] then (messages, 0)
  else if ¬ (cfg.effectiveMaxTokens < (estimate_tokens_for_messages messages : ℤ)) then
    (messages, 0)
  else
    let minKeep := cfg.alwaysKeepRecent + countSystem messages
    let maxKeep := messages.length
    let bestKeep := firstFit
      (fun k => decide ((estimate_tokens_for_messages (prunedAt cfg now messages k) : ℤ)
                          ≤ cfg.effectiveMaxTokens))
      (countdown maxKeep minKeep) minKeep
    let toRemove := select_messages_to_prune now messages bestKeep
      cfg.alwaysKeepRecent cfg.alwaysKeepSystem
    (removeByIndex messages toRemove, toRemove.length)

/-- The memory-block header line `"## Relevant Context from Memory:"`. -/
def memoryHeader : List Char := "## Relevant Context from Memory:".data

/-- One formatted memory line `f"- {memory.get('content', '')}"`. -/
def memoryLine (content : List Char) : List Char :=
  '-' :: ' ' :: content

/-- The greedy inclusion loop of `_format_memories`: tokens of each line are
`len(memory_text) // 4`; the loop `break`s at the first memory that would
exceed `available_tokens`. -/
def greedyIncludeMemories : List (List Char) → ℕ → ℤ → List (List Char)
  | [], _, _ => []
  | m :: ms, currentTokens, availableTokens =>
    let memoryTokens := (memoryLine m).length / 4
    if availableTokens < (currentTokens + memoryTokens : ℤ) then []
    else m :: greedyIncludeMemories ms (currentTokens + memoryTokens) availableTokens

/-- `ContextManager._format_memories`: the formatted system message (if any
memory fits) together with the included memory contents. -/
def format_memories (memories : List (List Char)) (availableTokens : ℤ) :
    List Message × List (List Char) :=
  if memories = [] ∨ availableTokens ≤ 0 then ([], [])
  else
    let headerMessage : Message := ⟨"system".data, memoryHeader, none⟩
    let currentTokens := estimate_tokens_for_messages [headerMessage]
    let included := greedyIncludeMemories memories currentTokens availableTokens
    if included = [] then ([], [])
    else
      ([⟨"system".data,
         List.intercalate ['\n'] (memoryHeader :: included.map memoryLine), none⟩],
       included)

/-- The `ContextWindow` record of memory/models.py (`retrieved_memories` holds
the included memory contents). -/
structure ContextWindow where
  messages : List Message
  total_tokens : ℕ
  pruned_count : ℕ
  retrieved_memories : List (List Char)
deriving DecidableEq

/-- `ContextManager.prepare_context`.  `now` is the call's clock instant; the
token count is recomputed after pruning and after memory insertion exactly as
in the source. -/
noncomputable def prepare_context (cfg : Config) (now : ℚ) (messages : List Message)
    (memories : List (List Char)) : ContextWindow :=
  let currentTokens := estimate_tokens_for_messages messages
  let pruned :=
    if cfg.effectiveMaxTokens < (currentTokens : ℤ) then prune_messages cfg now messages
    else (messages, 0)
  let contextMessages := pruned.1
  let prunedCount := pruned.2
  let currentTokens := estimate_tokens_for_messages contextMessages
  if memories = [] then ⟨contextMessages, currentTokens, prunedCount, []⟩
  else
    let availableTokens : ℤ := cfg.effectiveMaxTokens - currentTokens
    let fm := format_memories memories availableTokens
    if fm.1 = [] then ⟨contextMessages, currentTokens, prunedCount, fm.2⟩
    else
      let systemCount := countSystem contextMessages
      let newMessages :=
        contextMessages.take systemCount ++ fm.1 ++ contextMessages.drop systemCount
      ⟨newMessages, estimate_tokens_for_messages newMessages, prunedCount, fm.2⟩

/-- `ContextManager.should_prune`. -/
def should_prune (cfg : Config) (messages : List Message) : Prop :=
  cfg.effectiveMaxTokens < (estimate_tokens_for_messages messages : ℤ)

-- ---------------------------------------------------------------------------
-- memory/models.py + memory/storage/sqlite.py : pure store model
-- ---------------------------------------------------------------------------

/-- `MemoryType` from memory/models.py. -/
inductive MemType where
  | working
  | episodic
  | semantic
deriving DecidableEq

/-- A row of the `memories` table (metadata omitted; no claim touches it). -/
structure MemRow where
  id : ℕ
  agent_id : List Char
  session_id : List Char
  memory_type : MemType
  content : List Char
  embedding_text : List Char
  importance_score : ℚ
  access_count : ℕ
  last_accessed : Option ℚ
  created_at : ℚ
deriving DecidableEq

/-- A row of the `memories_fts` full-text index. -/
structure FtsRow where
  rowid : ℕ
  content : List Char
  embedding_text : List Char
deriving DecidableEq

/-- The persistent state touched by the memory operations. -/
structure Store where
  mems : List MemRow
  fts : List FtsRow
deriving DecidableEq

/-- An FTS `MATCH` semantics: given the query and an index row's
`(content, embedding_text)`, does the row match?  SQLite's tokenizer is an
external collaborator, so it stays an abstract parameter. -/
def FtsMatch : Type := List Char → FtsRow → Bool

/-- Strict ordering test for `ORDER BY m.importance_score DESC, m.created_at DESC`. -/
def memBefore (a b : MemRow) : Bool :=
  decide (b.importance_score < a.importance_score) ||
    (a.importance_score = b.importance_score && decide (b.created_at < a.created_at))

/-- `SQLiteStorage.retrieve_memories`: filter by agent, importance floor,
optional type and FTS match (join on `memories_fts`), order by importance then
creation time descending, truncate to `limit`. -/
def retrieve_memories (fm : FtsMatch) (st : Store) (agentId : List Char)
    (query : List Char) (memoryType : Option MemType) (limit : ℕ)
    (minImportance : ℚ) : List MemRow :=
  let rows := st.mems.filter (fun m =>
    m.agent_id = agentId && decide (minImportance ≤ m.importance_score) &&
    (match memoryType with
     | none => true
     | some t => m.memory_type = t) &&
    st.fts.any (fun f => f.rowid = m.id && fm query f))
  (insSort memBefore rows).take limit

/-- `SQLiteStorage.update_memory_access`:
`access_count += 1, last_accessed = now` on the row with the given id. -/
def update_memory_access (st : Store) (memoryId : ℕ) (now : ℚ) : Store :=
  { st with
    mems := st.mems.map (fun r =>
      if r.id = memoryId then
        { r with access_count := r.access_count + 1, last_accessed := some now }
      else r) }

/-- `MemoryManager.retrieve_memories`: storage retrieval followed by one
`update_memory_access` per returned record with a truthy id. -/
def manager_retrieve_memories (fm : FtsMatch) (st : Store) (agentId : List Char)
    (query : List Char) (memoryType : Option MemType) (limit : ℕ)
    (minImportance : ℚ) (now : ℚ) : List MemRow × Store :=
  let memories := retrieve_memories fm st agentId query memoryType limit minImportance
  (memories,
   memories.foldl
     (fun s m => if m.id ≠ 0 then update_memory_access s m.id now else s) st)

/-- `SQLiteStorage.delete_memories`: FTS rows are deleted for every listed id,
while `memories` rows are deleted only when they also belong to `agent_id`. -/
def delete_memories (st : Store) (agentId : List Char) (memoryIds : List ℕ) : Store :=
  if memoryIds = [] then st
  else
    { mems := st.mems.filter (fun m => !(m.agent_id = agentId && decide (m.id ∈ memoryIds))),
      fts := st.fts.filter (fun f => decide (f.rowid ∉ memoryIds)) }

-- ---------------------------------------------------------------------------
-- memory/query.py
-- ---------------------------------------------------------------------------

/-- Characters kept by `QueryEngine._preprocess_query`'s
`re.sub(r'[^a-z0-9\s\-]', ' ', query)`. -/
def isQueryKeepChar (c : Char) : Bool :=
  ('a' ≤ c && c ≤ 'z') || c.isDigit || isPySpace c || c = '-'

/-- Split into maximal runs of characters satisfying `keep` (runs separated by
characters failing it), i.e. tokenisation against a character class. -/
def splitRuns (keep : Char → Bool) : List Char → List Char → List (List Char)
  | [], acc => if acc = [] then [] else [acc.reverse]
  | c :: cs, acc =>
    if keep c then splitRuns keep cs (c :: acc)
    else if acc = [] then splitRuns keep cs []
    else acc.reverse :: splitRuns keep cs []

/-- `QueryEngine._preprocess_query`: lowercase, replace characters outside
`[a-z0-9\s\-]` by spaces, then `' '.join(query.split())`. -/
def preprocess_query (query : List Char) : List Char :=
  if query = [] then []
  else
    let lowered := lowerChars query
    let subbed := lowered.map (fun c => if isQueryKeepChar c then c else ' ')
    List.intercalate [' '] (splitRuns (fun c => !isPySpace c) subbed [])

/-- The fixed stop-word set of `QueryEngine.extract_keywords`. -/
def stopWords : List (List Char) :=
  ["the".data, "a".data, "an".data, "and".data, "or".data, "but".data, "in".data,
   "on".data, "at".data, "to".data, "for".data,
   "of".data, "with".data, "by".data, "from".data, "as".data, "is".data,
   "was".data, "are".data, "were".data, "be".data,
   "been".data, "being".data, "have".data, "has".data, "had".data, "do".data,
   "does".data, "did".data, "will".data,
   "would".data, "could".data, "should".data, "may".data, "might".data,
   "can".data, "i".data, "you".data, "he".data,
   "she".data, "it".data, "we".data, "they".data, "what".data, "which".data,
   "who".data, "when".data, "where".data,
   "why".data, "how".data, "this".data, "that".data, "these".data, "those".data]

/-- `re.findall(r'\b\w+\b', text.lower())` (ASCII model): the maximal runs of
word characters of the lowercased text. -/
def findWords (text : List Char) : List (List Char) :=
  splitRuns isWordChar (lowerChars text) []

/-- The keyword-eligibility filter of `extract_keywords`:
not a stop word and longer than 3 characters. -/
def keywordEligible (w : List Char) : Bool :=
  decide (w ∉ stopWords) && decide (3 < w.length)

/-- Distinct words in order of first occurrence (the iteration order of
`collections.Counter` over `filtered_words`). -/
def firstOccurrences (ws : List (List Char)) : List (List Char) :=
  ws.foldl (fun acc w => if w ∈ acc then acc else acc ++ [w]) []

/-- Strict "strictly larger count" test for `Counter.most_common`'s stable
descending order. -/
def countGT (a b : List Char × ℕ) : Bool :=
  decide (b.2 < a.2)

/-- `QueryEngine.extract_keywords`: tokenise the lowercased text, drop stop
words and short words, rank by frequency (ties by first occurrence), return
the top `top_k`. -/
def extract_keywords (text : List Char) (topK : ℕ) : List (List Char) :=
  if text = [] then []
  else
    let filteredWords := (findWords text).filter keywordEligible
    let counted := (firstOccurrences filteredWords).map
      (fun w => (w, filteredWords.count w))
    ((insSort countGT counted).take topK).map (fun p => p.1)

/-- The separator of `" OR ".join(keywords)`. -/
def orSeparator : List Char := " OR ".data

/-- `QueryEngine.search`: preprocess the query, then delegate to
`MemoryManager.retrieve_memories` (which also bumps access counts). -/
def query_engine_search (fm : FtsMatch) (st : Store) (now : ℚ) (agentId : List Char)
    (query : List Char) (memoryType : Option MemType) (limit : ℕ)
    (minImportance : ℚ) : List MemRow × Store :=
  manager_retrieve_memories fm st agentId (preprocess_query query) memoryType
    limit minImportance now

/-- `QueryEngine.search_by_keywords`: OR-combine the keywords and search. -/
def search_by_keywords (fm : FtsMatch) (st : Store) (now : ℚ) (agentId : List Char)
    (keywords : List (List Char)) (memoryType : Option MemType) (limit : ℕ)
    (minImportance : ℚ) : List MemRow × Store :=
  if keywords = [] then ([], st)
  else
    query_engine_search fm st now agentId (List.intercalate orSeparator keywords)
      memoryType limit minImportance

/-- `MemoryRetriever.retrieve_for_message`: keyword extraction with fallback to
a raw-text search, both with importance floor 0.4. -/
def retrieve_for_message (fm : FtsMatch) (st : Store) (now : ℚ) (agentId : List Char)
    (messageContent : List Char) (limit : ℕ) : List MemRow × Store :=
  let keywords := extract_keywords messageContent 5
  if keywords = [] then
    query_engine_search fm st now agentId messageContent none limit (2/5)
  else
    search_by_keywords fm st now agentId keywords none limit (2/5)

-- ---------------------------------------------------------------------------
-- Claim-side definitions (worded from the specification, for comparison)
-- ---------------------------------------------------------------------------

/-- The spec's protected set: system messages (when `always_keep_system`) plus
the last `always_keep_recent` messages by position, in original order. -/
def protectedMessages (cfg : Config) (messages : List Message) : List Message :=
  (messages.enum.filter
    (protectedPair cfg.alwaysKeepSystem cfg.alwaysKeepRecent messages.length)).map
    (fun p => p.2)

/-- Size of the protected index set. -/
def protectedIdxCount (cfg : Config) (messages : List Message) : ℕ :=
  (messages.enum.filter
    (protectedPair cfg.alwaysKeepSystem cfg.alwaysKeepRecent messages.length)).length

/-- Split a text into its lines at newline characters. -/
def splitOnChar (sep : Char) : List Char → List Char → List (List Char)
  | [], acc => [acc.reverse]
  | c :: cs, acc =>
    if c = sep then acc.reverse :: splitOnChar sep cs []
    else splitOnChar sep cs (c :: acc)

def linesOf (cs : List Char) : List (List Char) :=
  splitOnChar '\n' cs []

/-- Modelled from the spec: a "digit-dot prefix" — a nonempty run of digits
followed by a dot. -/
def claimDigitDot (l : List Char) : Bool :=
  !(l.takeWhile Char.isDigit).isEmpty && (l.dropWhile Char.isDigit).headD ' ' = '.'

/-- Modelled from the spec: a list-like line, one starting with `'-'`, `'*'`,
or a digit-dot prefix. -/
def claimListLikeLine (l : List Char) : Bool :=
  l.headD ' ' = '-' || l.headD ' ' = '*' || claimDigitDot l

def claimHasListLike (cs : List Char) : Bool :=
  (linesOf cs).any claimListLikeLine

/-- Modelled from the spec (claim C3): the content-importance formula as the
claim words it, applied uniformly to every content string. -/
def claimContentImportance (content : List Char) : ℚ :=
  clampQ (1/2
    + (1/10) * ((highImportanceKeywords.filter
        (fun kw => isSubstr kw (lowerChars content))).length : ℚ)
    + (if content.contains '?' then 3/20 else 0)
    + (if isSubstr tripleBackquote content || isSubstr [backquoteChar] content
       then 1/10 else 0)
    + (if claimHasListLike content then 1/20 else 0)
    + (if isSubstr httpMarker content || isSubstr httpsMarker content then 1/20 else 0)
    + (if 500 < content.length then 1/20 else 0)
    - (if content.length < 20 then 1/10 else 0))

/-- The content-importance formula the code actually computes, as a closed
arithmetic expression: like the claim's but returning 0 for empty content and
using the code's dot-requiring list-line regex. -/
def amendedContentImportance (content : List Char) : ℚ :=
  if content = [] then 0
  else
    clampQ (1/2
      + (1/10) * ((highImportanceKeywords.filter
          (fun kw => isSubstr kw (lowerChars content))).length : ℚ)
      + (if content.contains '?' then 3/20 else 0)
      + (if isSubstr tripleBackquote content || isSubstr [backquoteChar] content
         then 1/10 else 0)
      + (if hasListLine content then 1/20 else 0)
      + (if isSubstr httpMarker content || isSubstr httpsMarker content then 1/20 else 0)
      + (if 500 < content.length then 1/20 else 0)
      - (if content.length < 20 then 1/10 else 0))

-- ---------------------------------------------------------------------------
-- Helper lemmas
-- ---------------------------------------------------------------------------

lemma foldl_add_eq_sum {α : Type} (f : α → ℕ) (l : List α) (a : ℕ) :
    l.foldl (fun total x => total + f x) a = a + (l.map f).sum := by
  induction l generalizing a with
  | nil => simp
  | cons x xs ih => simp [List.foldl_cons, ih, Nat.add_assoc]

lemma estimate_messages_eq_sum (messages : List Message) :
    estimate_tokens_for_messages messages =
      if messages = [] then 0
      else (messages.map
        (fun m => estimate_tokens m.role + estimate_tokens m.content + 10)).sum + 5 := by
  unfold estimate_tokens_for_messages
  split
  · rfl
  · rw [foldl_add_eq_sum]
    simp

lemma sum_le_sum_of_sublist {l₁ l₂ : List ℕ} (h : List.Sublist l₁ l₂) : l₁.sum ≤ l₂.sum := by
  induction h with
  | slnil => exact Nat.le_refl _
  | cons a _ ih => simpa using Nat.le_trans ih (Nat.le_add_left _ _)
  | cons₂ a _ ih => simpa using ih

-- ---------------------------------------------------------------------------
-- C2
-- ---------------------------------------------------------------------------

/-- C2: `estimate(text)` is 0 for empty text and `max(1, ⌊len(text)/4⌋)`
otherwise; `estimate(messages)` is 0 for the empty list and otherwise the sum
over messages of role tokens + content tokens + 10, plus the fixed
conversation overhead 5. -/
theorem c2_token_estimator_formulas :
    (∀ text : List Char,
      estimate_tokens text = if text.length = 0 then 0 else max 1 (text.length / 4)) ∧
    (∀ messages : List Message,
      estimate_tokens_for_messages messages =
        if messages = [] then 0
        else (messages.map
          (fun m => estimate_tokens m.role + estimate_tokens m.content + 10)).sum + 5) := by
  constructor
  · intro text
    unfold estimate_tokens
    simp [List.length_eq_zero]
  · exact estimate_messages_eq_sum

-- ---------------------------------------------------------------------------
-- C10
-- ---------------------------------------------------------------------------

/-- C10: the message-list token estimate is monotone under message removal:
any sublist of a message list has an estimate no larger than the original's. -/
theorem c10_estimate_monotone_under_removal (ms' ms : List Message)
    (h : List.Sublist ms' ms) :
    estimate_tokens_for_messages ms' ≤ estimate_tokens_for_messages ms := by
  rw [estimate_messages_eq_sum, estimate_messages_eq_sum]
  rcases eq_or_ne ms' [] with h1 | h1
  · simp [h1]
  · have h2 : ms ≠ [] := by
      intro h2
      exact h1 (List.sublist_nil.mp (h2 ▸ h))
    simp only [h1, h2, if_neg, ite_false]
    have := sum_le_sum_of_sublist
      (h.map (fun m => estimate_tokens m.role + estimate_tokens m.content + 10))
    omega

/-- Witness for C10 at a concrete sublist pair. -/
theorem c10_witness :
    List.Sublist [(⟨"user".data, "hello".data, none⟩ : Message)]
      [(⟨"system".data, "sys".data, none⟩ : Message),
       (⟨"user".data, "hello".data, none⟩ : Message)] ∧
    estimate_tokens_for_messages [(⟨"user".data, "hello".data, none⟩ : Message)] ≤
      estimate_tokens_for_messages
        [(⟨"system".data, "sys".data, none⟩ : Message),
         (⟨"user".data, "hello".data, none⟩ : Message)] :=
  ⟨by decide,
   c10_estimate_monotone_under_removal _ _ (by decide)⟩

-- ---------------------------------------------------------------------------
-- C3
-- ---------------------------------------------------------------------------

lemma foldl_tenth (l : List (List Char)) (p : List Char → Bool) (s : ℚ) :
    l.foldl (fun s kw => if p kw then s + 1/10 else s) s
      = s + (1/10) * ((l.filter p).length : ℚ) := by
  induction l generalizing s with
  | nil => simp
  | cons k ks ih =>
    cases hpk : p k with
    | true =>
      simp only [List.foldl_cons, hpk, if_true, ih, List.filter_cons, List.length_cons]
      push_cast
      ring
    | false =>
      simp only [List.foldl_cons, hpk, Bool.false_eq_true, if_false, ih, List.filter_cons]

/-- A line-like content whose list marker has no trailing dot. -/
def c3CexContent : List Char := "- bullet point here xx".data

/-- C3 (counterexample): the claim's formula disagrees with the code on a
list-like line without a trailing dot (code scores 1/2, the claimed formula
11/20) and on the empty string (code returns 0, the claimed formula 2/5). -/
theorem c3_content_importance_counterexample :
    calculate_content_importance c3CexContent = 1/2 ∧
    claimContentImportance c3CexContent = 11/20 ∧
    calculate_content_importance c3CexContent ≠ claimContentImportance c3CexContent ∧
    calculate_content_importance [] = 0 ∧
    claimContentImportance [] = 2/5 ∧
    calculate_content_importance [] ≠ claimContentImportance [] := by
  have h1 : calculate_content_importance c3CexContent = 1/2 := by
    have hk : (highImportanceKeywords.filter
        (fun kw => isSubstr kw (lowerChars c3CexContent))).length = 0 := by decide
    simp +decide only [calculate_content_importance, highImportanceKeywords,
      List.foldl, clampQ]
    norm_num
  have h2 : claimContentImportance c3CexContent = 11/20 := by
    have hk : (highImportanceKeywords.filter
        (fun kw => isSubstr kw (lowerChars c3CexContent))).length = 0 := by decide
    simp +decide only [claimContentImportance, clampQ, hk]
    norm_num
  have h3 : calculate_content_importance [] = 0 := by decide
  have h4 : claimContentImportance [] = 2/5 := by
    have hk : (highImportanceKeywords.filter
        (fun kw => isSubstr kw (lowerChars []))).length = 0 := by decide
    simp +decide only [claimContentImportance, clampQ, hk]
    norm_num
  refine ⟨h1, h2, ?_, h3, h4, ?_⟩
  · rw [h1, h2]; norm_num
  · rw [h3, h4]; norm_num

/-- C3 (amended): the content-importance component equals the claimed clamped
sum formula, except that empty content scores 0 and the list-line bonus
requires the marker run to be followed by a dot (the code's regex). -/
theorem c3_content_importance_amended (content : List Char) :
    calculate_content_importance content = amendedContentImportance content := by
  unfold calculate_content_importance amendedContentImportance
  rcases eq_or_ne content [] with h | h
  · simp [h]
  · simp only [h, if_neg, ite_false]
    rw [foldl_tenth]
    split_ifs <;> (congr 1 <;> ring)

-- ---------------------------------------------------------------------------
-- C4
-- ---------------------------------------------------------------------------

/-- C4: the importance score equals the clamped weighted sum
`0.3*recency + 0.4*content + 0.2*interaction + 0.1*role`, always lies in
`[0,1]` — also when the timestamp is later than the current time, where the
raw recency factor exceeds 1 — and the role factor defaults to 0.7 for
unknown roles. -/
theorem c4_importance_score_clamped (content role : List Char)
    (timestamp currentTime : ℚ) (hasReplies : Bool) :
    calculate_importance_score content role timestamp currentTime hasReplies =
      max 0 (min 1
        ((3/10) * Real.exp (-(((currentTime - timestamp : ℚ) : ℝ)) / 24) +
         (4/10) * (calculate_content_importance content : ℝ) +
         (2/10) * (if hasReplies then (1:ℝ) else 1/2) +
         (1/10) * roleFactor role)) ∧
    0 ≤ calculate_importance_score content role timestamp currentTime hasReplies ∧
    calculate_importance_score content role timestamp currentTime hasReplies ≤ 1 ∧
    (currentTime < timestamp →
      1 < Real.exp (-(((currentTime - timestamp : ℚ) : ℝ)) / 24)) ∧
    (lowerChars role ≠ "user".data → lowerChars role ≠ "system".data →
      lowerChars role ≠ "assistant".data → roleFactor role = 7/10) := by
  refine ⟨?_, ?_, ?_, ?_, ?_⟩
  · unfold calculate_importance_score
    ring_nf
  · exact le_max_left _ _
  · exact max_le zero_le_one (min_le_left _ _)
  · intro h
    rw [Real.one_lt_exp_iff]
    have hlt : ((currentTime - timestamp : ℚ) : ℝ) < 0 := by
      rw [← Rat.cast_zero, Rat.cast_lt]
      linarith
    linarith
  · intro h1 h2 h3
    unfold roleFactor
    simp only [h1, h2, h3, if_false, ite_false]

/-- Witness for C4 at a future timestamp and an unknown role. -/
theorem c4_witness :
    0 ≤ calculate_importance_score ("hi".data) ("tool".data) 1 0 false ∧
    calculate_importance_score ("hi".data) ("tool".data) 1 0 false ≤ 1 ∧
    1 < Real.exp (-((((0:ℚ) - 1 : ℚ)) : ℝ) / 24) ∧
    roleFactor ("tool".data) = 7/10 := by
  have h := c4_importance_score_clamped ("hi".data) ("tool".data) 1 0 false
  exact ⟨h.2.1, h.2.2.1, h.2.2.2.1 (by norm_num),
    h.2.2.2.2 (by decide) (by decide) (by decide)⟩

-- ---------------------------------------------------------------------------
-- C1 : structural lemmas about pruning
-- ---------------------------------------------------------------------------

lemma enumFrom_fst_ge {α : Type} : ∀ (n : ℕ) (l : List α) (p : ℕ × α),
    p ∈ List.enumFrom n l → n ≤ p.1 := by
  intro n l
  induction l generalizing n with
  | nil => simp [List.enumFrom]
  | cons a l ih =>
    intro p hp
    simp only [List.enumFrom, List.mem_cons] at hp
    rcases hp with rfl | hp
    · exact le_refl _
    · exact le_trans (Nat.le_succ n) (ih (n+1) p hp)

lemma filter_map_snd_sublist {α : Type} (q : ℕ × α → Bool) :
    ∀ (n : ℕ) (l : List α),
      List.Sublist (((List.enumFrom n l).filter q).map (fun p => p.2)) l := by
  intro n l
  induction l generalizing n with
  | nil => simp [List.enumFrom]
  | cons a l ih =>
    simp only [List.enumFrom, List.filter_cons]
    cases q (n, a) with
    | true => simpa using List.Sublist.cons₂ a (ih (n+1))
    | false => simpa using List.Sublist.cons a (ih (n+1))

lemma removeByIndex_sublist (msgs : List Message) (rem : List ℕ) :
    List.Sublist (removeByIndex msgs rem) msgs := by
  unfold removeByIndex
  rw [List.enum]
  exact filter_map_snd_sublist _ 0 msgs

lemma firstFit_pred (p : ℕ → Bool) :
    ∀ (ks : List ℕ) (dflt : ℕ), (∃ k ∈ ks, p k = true) → p (firstFit p ks dflt) = true := by
  intro ks
  induction ks with
  | nil =>
    intro dflt h
    exact absurd h (by simp)
  | cons k ks ih =>
    intro dflt h
    unfold firstFit
    cases hk : p k with
    | true => simpa using hk
    | false =>
      simp only [Bool.false_eq_true, if_false]
      rcases h with ⟨k', hk', hpk'⟩
      rcases List.mem_cons.mp hk' with rfl | hmem
      · rw [hk] at hpk'; exact absurd hpk' (by simp)
      · exact ih dflt ⟨k', hmem, hpk'⟩

lemma mem_countdown {hi lo : ℕ} (h : lo ≤ hi) : lo ∈ countdown hi lo := by
  unfold countdown
  rw [List.mem_reverse, List.mem_range'_1]
  omega

lemma enumFrom_mem_unique {α : Type} :
    ∀ (n : ℕ) (l : List α) (i : ℕ) (x y : α),
      (i, x) ∈ List.enumFrom n l → (i, y) ∈ List.enumFrom n l → x = y := by
  intro n l
  induction l generalizing n with
  | nil => simp [List.enumFrom]
  | cons a l ih =>
    intro i x y hx hy
    simp only [List.enumFrom, List.mem_cons, Prod.mk.injEq] at hx hy
    rcases hx with ⟨hin, hxa⟩ | hx
    · rcases hy with ⟨_, hya⟩ | hy
      · rw [hxa, hya]
      · exact absurd (enumFrom_fst_ge (n+1) l _ hy) (by omega)
    · rcases hy with ⟨hin, hya⟩ | hy
      · exact absurd (enumFrom_fst_ge (n+1) l _ hx) (by omega)
      · exact ih (n+1) i x y hx hy

lemma removeByIndex_complement (msgs : List Message) (q : ℕ × Message → Bool) :
    removeByIndex msgs ((msgs.enum.filter (fun p => !q p)).map (fun p => p.1)) =
      (msgs.enum.filter q).map (fun p => p.2) := by
  unfold removeByIndex
  congr 1
  apply List.filter_congr
  intro p hp
  cases hq : q p with
  | true =>
    rw [decide_eq_true_iff]
    intro hcon
    simp only [List.mem_map, List.mem_filter] at hcon
    rcases hcon with ⟨r, ⟨hr, hqr⟩, hj⟩
    have hxy : r.2 = p.2 := by
      apply enumFrom_mem_unique 0 msgs p.1
      · rw [← hj]
        simpa [List.enum] using hr
      · simpa [List.enum] using hp
    have hrp : r = p := Prod.ext hj hxy
    rw [hrp, hq] at hqr
    simp at hqr
  | false =>
    have hmem : p.1 ∈ (msgs.enum.filter (fun p => !q p)).map (fun p => p.1) :=
      List.mem_map.mpr ⟨p, List.mem_filter.mpr ⟨hp, by simp [hq]⟩, rfl⟩
    rw [decide_eq_false_iff_not]
    intro hcon
    exact hcon hmem

lemma select_all_unprotected (now : ℚ) (msgs : List Message) (k akr : ℕ) (aks : Bool)
    (hk : ¬ msgs.length ≤ k)
    (hrem : (k : ℤ) -
      ((msgs.enum.filter (protectedPair aks akr msgs.length)).length : ℤ) ≤ 0) :
    select_messages_to_prune now msgs k akr aks =
      (msgs.enum.filter (fun p => !(protectedPair aks akr msgs.length p))).map
        (fun p => p.1) := by
  unfold select_messages_to_prune
  rw [if_neg hk, if_pos hrem]

lemma prunedAt_minKeep (cfg : Config) (now : ℚ) (msgs : List Message) (k : ℕ)
    (hk : ¬ msgs.length ≤ k)
    (hrem : (k : ℤ) - (protectedIdxCount cfg msgs : ℤ) ≤ 0) :
    prunedAt cfg now msgs k = protectedMessages cfg msgs := by
  unfold prunedAt protectedMessages
  rw [select_all_unprotected now msgs k cfg.alwaysKeepRecent cfg.alwaysKeepSystem hk hrem]
  exact removeByIndex_complement msgs _

lemma protectedIdxCount_le_length (cfg : Config) (msgs : List Message) :
    protectedIdxCount cfg msgs ≤ msgs.length := by
  unfold protectedIdxCount
  calc (msgs.enum.filter _).length ≤ msgs.enum.length := List.length_filter_le _ _
  _ = msgs.length := List.enum_length

lemma protectedMessages_all (cfg : Config) (msgs : List Message)
    (h : protectedIdxCount cfg msgs = msgs.length) :
    protectedMessages cfg msgs = msgs := by
  unfold protectedMessages
  unfold protectedIdxCount at h
  have hsub : List.Sublist
      (msgs.enum.filter (protectedPair cfg.alwaysKeepSystem cfg.alwaysKeepRecent msgs.length))
      msgs.enum := List.filter_sublist _
  have hlen : (msgs.enum.filter
      (protectedPair cfg.alwaysKeepSystem cfg.alwaysKeepRecent msgs.length)).length
      = msgs.enum.length := by
    rw [h, List.enum_length]
  rw [hsub.eq_of_length hlen]
  exact List.enum_map_snd msgs

lemma prune_messages_fits (cfg : Config) (now : ℚ) (msgs : List Message)
    (hne : msgs ≠ [])
    (hover : cfg.effectiveMaxTokens < (estimate_tokens_for_messages msgs : ℤ))
    (Hc : cfg.alwaysKeepRecent + countSystem msgs ≤ protectedIdxCount cfg msgs)
    (Hfit : (estimate_tokens_for_messages (protectedMessages cfg msgs) : ℤ)
      ≤ cfg.effectiveMaxTokens) :
    ((estimate_tokens_for_messages (prune_messages cfg now msgs).1 : ℤ)
      ≤ cfg.effectiveMaxTokens) := by
  have hcount_le := protectedIdxCount_le_length cfg msgs
  set minKeep := cfg.alwaysKeepRecent + countSystem msgs with hmk
  by_cases hlen : msgs.length ≤ minKeep
  · -- then every message is protected and the whole list fits: contradiction
    have h1 : protectedIdxCount cfg msgs = msgs.length := by omega
    rw [protectedMessages_all cfg msgs h1] at Hfit
    exact absurd Hfit (by omega)
  · -- the scan fits at the latest at minKeep
    have hrem : (minKeep : ℤ) - (protectedIdxCount cfg msgs : ℤ) ≤ 0 := by omega
    have hfitsmin :
        (fun k => decide ((estimate_tokens_for_messages (prunedAt cfg now msgs k) : ℤ)
          ≤ cfg.effectiveMaxTokens)) minKeep = true := by
      rw [decide_eq_true_iff]
      rw [prunedAt_minKeep cfg now msgs minKeep hlen hrem]
      exact Hfit
    have hmem : minKeep ∈ countdown msgs.length minKeep := mem_countdown (by omega)
    have hbest := firstFit_pred
      (fun k => decide ((estimate_tokens_for_messages (prunedAt cfg now msgs k) : ℤ)
        ≤ cfg.effectiveMaxTokens))
      (countdown msgs.length minKeep) minKeep ⟨minKeep, hmem, hfitsmin⟩
    rw [decide_eq_true_iff] at hbest
    unfold prune_messages
    rw [if_neg hne, if_neg (by omega : ¬ ¬ (cfg.effectiveMaxTokens <
      (estimate_tokens_for_messages msgs : ℤ)))]
    exact hbest

lemma prepare_total_eq (cfg : Config) (now : ℚ) (msgs : List Message)
    (mems : List (List Char)) :
    (prepare_context cfg now msgs mems).total_tokens =
      estimate_tokens_for_messages ((prepare_context cfg now msgs mems).messages) := by
  simp only [prepare_context]
  repeat' split
  all_goals rfl

theorem c1_amended_core (cfg : Config) (now : ℚ) (msgs : List Message)
    (Hc : cfg.alwaysKeepRecent + countSystem msgs ≤ protectedIdxCount cfg msgs)
    (Hfit : (estimate_tokens_for_messages (protectedMessages cfg msgs) : ℤ)
      ≤ cfg.effectiveMaxTokens) :
    ((prepare_context cfg now msgs []).total_tokens : ℤ) ≤ cfg.effectiveMaxTokens := by
  by_cases hover : cfg.effectiveMaxTokens < (estimate_tokens_for_messages msgs : ℤ)
  · have hne : msgs ≠ [] := by
      intro h
      subst h
      have : protectedMessages cfg ([] : List Message) = [] := by
        unfold protectedMessages
        simp [List.enum]
      rw [this] at Hfit
      have : estimate_tokens_for_messages ([] : List Message) = 0 := by decide
      omega
    have hfits := prune_messages_fits cfg now msgs hne hover Hc Hfit
    simp only [prepare_context]
    rw [if_pos hover]
    simpa using hfits
  · simp only [prepare_context]
    rw [if_neg hover]
    simpa using le_of_not_lt hover

def c1WitnessCfg : Config := ⟨100, 0, 1, true⟩

def c1WitnessMsg : Message := ⟨"user".data, "hi".data, none⟩

/-- C1 (amended): whenever the two protected components are disjoint and the
recent window is full — i.e. `always_keep_recent + #system` does not exceed the
protected set's size — and the protected set alone fits the effective budget,
`prepare_context` without memories stays within the budget; moreover
`total_tokens` always equals the estimator's count of the window's messages. -/
theorem c1_prepare_context_budget (cfg : Config) (now : ℚ) (msgs : List Message)
    (Hc : cfg.alwaysKeepRecent + countSystem msgs ≤ protectedIdxCount cfg msgs)
    (Hfit : (estimate_tokens_for_messages (protectedMessages cfg msgs) : ℤ)
      ≤ cfg.effectiveMaxTokens) :
    ((prepare_context cfg now msgs []).total_tokens : ℤ) ≤ cfg.effectiveMaxTokens ∧
    ∀ mems : List (List Char),
      (prepare_context cfg now msgs mems).total_tokens =
        estimate_tokens_for_messages ((prepare_context cfg now msgs mems).messages) :=
  ⟨c1_amended_core cfg now msgs Hc Hfit, fun mems => prepare_total_eq cfg now msgs mems⟩

/-- Witness for C1 at a small conversation that satisfies both hypotheses. -/
theorem c1_witness :
    (c1WitnessCfg.alwaysKeepRecent + countSystem [c1WitnessMsg]
        ≤ protectedIdxCount c1WitnessCfg [c1WitnessMsg]) ∧
    ((estimate_tokens_for_messages (protectedMessages c1WitnessCfg [c1WitnessMsg]) : ℤ)
        ≤ c1WitnessCfg.effectiveMaxTokens) ∧
    ((prepare_context c1WitnessCfg 0 [c1WitnessMsg] []).total_tokens : ℤ)
        ≤ c1WitnessCfg.effectiveMaxTokens :=
  ⟨by decide, by decide,
   (c1_prepare_context_budget c1WitnessCfg 0 [c1WitnessMsg] (by decide) (by decide)).1⟩

def c1CfgOverlap : Config := ⟨100, 0, 1, true⟩

def c1MsgBig : Message := ⟨"user".data, List.replicate 400 'x', none⟩

def c1MsgSys : Message := ⟨"system".data, "ok".data, none⟩

def c1CfgMem : Config := ⟨40, 0, 1, true⟩

set_option maxRecDepth 8000 in
/-- C1 (counterexample): the claim fails as stated.  Left: a system message
inside the recent window makes `min_keep` double-count it, so pruning keeps
everything and the window exceeds the budget although the protected set alone
fits.  Right: memory injection under-accounts the inserted block, exceeding the
budget even though the protected set (empty) trivially fits. -/
theorem c1_budget_counterexample :
    ((estimate_tokens_for_messages (protectedMessages c1CfgOverlap [c1MsgBig, c1MsgSys]) : ℤ)
        ≤ c1CfgOverlap.effectiveMaxTokens) ∧
    c1CfgOverlap.effectiveMaxTokens <
      ((prepare_context c1CfgOverlap 0 [c1MsgBig, c1MsgSys] []).total_tokens : ℤ) ∧
    ((estimate_tokens_for_messages (protectedMessages c1CfgMem []) : ℤ)
        ≤ c1CfgMem.effectiveMaxTokens) ∧
    c1CfgMem.effectiveMaxTokens <
      ((prepare_context c1CfgMem 0 [] (List.replicate 30 [])).total_tokens : ℤ) := by
  refine ⟨by decide, by decide, by decide, ?_⟩
  have h : (prepare_context c1CfgMem 0 [] (List.replicate 30 [])).total_tokens = 46 := by
    decide
  rw [h]
  decide

-- ---------------------------------------------------------------------------
-- C5
-- ---------------------------------------------------------------------------

lemma prune_messages_sublist (cfg : Config) (now : ℚ) (msgs : List Message) :
    List.Sublist (prune_messages cfg now msgs).1 msgs := by
  unfold prune_messages
  split
  · exact List.Sublist.refl _
  · split
    · exact List.Sublist.refl _
    · exact removeByIndex_sublist _ _

lemma greedy_prefix : ∀ (ms : List (List Char)) (cur : ℕ) (avail : ℤ),
    ∃ t, greedyIncludeMemories ms cur avail ++ t = ms := by
  intro ms
  induction ms with
  | nil => exact fun _ _ => ⟨[], rfl⟩
  | cons m ms ih =>
    intro cur avail
    simp only [greedyIncludeMemories]
    split
    · exact ⟨m :: ms, rfl⟩
    · rcases ih (cur + (memoryLine m).length / 4) avail with ⟨t, ht⟩
      exact ⟨t, by rw [List.cons_append, ht]⟩

lemma format_memories_snd_prefix (mems : List (List Char)) (avail : ℤ) :
    ∃ t, (format_memories mems avail).2 ++ t = mems := by
  simp only [format_memories]
  split
  · exact ⟨mems, rfl⟩
  · split
    · exact ⟨mems, rfl⟩
    · exact greedy_prefix mems _ avail

lemma format_memories_fst_cases (mems : List (List Char)) (avail : ℤ) :
    (format_memories mems avail).1 = [] ∨
      ∃ bm : Message, bm.role = "system".data ∧ (format_memories mems avail).1 = [bm] := by
  simp only [format_memories]
  split
  · exact Or.inl rfl
  · split
    · exact Or.inl rfl
    · exact Or.inr ⟨_, rfl, rfl⟩

/-- C5 (amended): every window returned by `prepare_context` consists of a
sublist `kept` of the original messages (pruning is stable), either unchanged
or with a single system-role memory block inserted at the index equal to the
number of system-role messages among the retained messages; the included
memories are a prefix of the supplied candidates (greedy, earlier memories
win). -/
theorem c5_window_structure (cfg : Config) (now : ℚ) (msgs : List Message)
    (mems : List (List Char)) :
    ∃ kept : List Message, List.Sublist kept msgs ∧
      ((prepare_context cfg now msgs mems).messages = kept ∨
        ∃ bm : Message, bm.role = "system".data ∧
          (prepare_context cfg now msgs mems).messages =
            kept.take (countSystem kept) ++ bm :: kept.drop (countSystem kept)) ∧
      ∃ t, (prepare_context cfg now msgs mems).retrieved_memories ++ t = mems := by
  simp only [prepare_context]
  set kept := (if cfg.effectiveMaxTokens < ((estimate_tokens_for_messages msgs : ℕ) : ℤ)
    then prune_messages cfg now msgs else (msgs, 0)).1 with hkept
  have hsub : List.Sublist kept msgs := by
    rw [hkept]
    split
    · exact prune_messages_sublist cfg now msgs
    · exact List.Sublist.refl _
  refine ⟨kept, hsub, ?_⟩
  split
  · rename_i hmem
    subst hmem
    exact ⟨Or.inl rfl, [], rfl⟩
  · rcases format_memories_fst_cases mems
        (cfg.effectiveMaxTokens - (estimate_tokens_for_messages kept : ℤ)) with hfm | ⟨bm, hbm, hfm⟩
    · rw [if_pos hfm]
      refine ⟨Or.inl rfl, ?_⟩
      exact format_memories_snd_prefix mems _
    · rw [if_neg (by rw [hfm]; exact fun h => List.cons_ne_nil _ _ h)]
      constructor
      · refine Or.inr ⟨bm, hbm, ?_⟩
        rw [hfm]
        simp
      · exact format_memories_snd_prefix mems _

/-- Modelled from the spec: insert the memory block immediately after the
leading system messages of the retained conversation. -/
def specAfterLeadingSystem (retained block : List Message) : List Message :=
  retained.takeWhile (fun m => m.role = "system".data) ++ block ++
    retained.dropWhile (fun m => m.role = "system".data)

def c5Cfg : Config := ⟨1000, 0, 1, true⟩

def c5U : Message := ⟨"user".data, "hello".data, none⟩

def c5S : Message := ⟨"system".data, "ok".data, none⟩

def c5Block : Message :=
  ⟨"system".data, List.intercalate ['\n'] [memoryHeader, memoryLine ("fact".data)], none⟩

/-- C5 (counterexample): with a user message followed by a system message, the
code inserts the memory block at index 1 (the count of all system messages),
not immediately after the leading system messages (index 0, as claimed). -/
theorem c5_placement_counterexample :
    (prepare_context c5Cfg 0 [c5U, c5S] [("fact".data)]).messages = [c5U, c5Block, c5S] ∧
    (prepare_context c5Cfg 0 [c5U, c5S] [("fact".data)]).messages ≠
      specAfterLeadingSystem [c5U, c5S] [c5Block] ∧
    specAfterLeadingSystem [c5U, c5S] [c5Block] = [c5Block, c5U, c5S] :=
  ⟨by decide, by decide, by decide⟩

-- ---------------------------------------------------------------------------
-- C7
-- ---------------------------------------------------------------------------

def c7OtherRow : MemRow :=
  ⟨1, "bob".data, "s".data, MemType.episodic, "codes".data, "codes".data, 1, 0, none, 0⟩

def c7Store : Store := ⟨[c7OtherRow], [⟨1, "codes".data, "codes".data⟩]⟩

def c7MatchAll : FtsMatch := fun _ _ => true

/-- C7: `delete_memories` scopes the row deletion to the agent but deletes the
FTS index entry for every listed id.  Deleting id 1 as agent "alice" leaves
agent "bob"'s row in place yet destroys its search-index entry, so the memory
is no longer retrievable by full-text search — contradicting the claim that
other agents' records are left entirely unchanged. -/
theorem c7_delete_unscoped_fts_divergence :
    c7OtherRow.agent_id ≠ "alice".data ∧
    (delete_memories c7Store ("alice".data) [1]).mems = [c7OtherRow] ∧
    (delete_memories c7Store ("alice".data) [1]).fts = [] ∧
    retrieve_memories c7MatchAll c7Store ("bob".data) ("codes".data) none 10 0
      = [c7OtherRow] ∧
    retrieve_memories c7MatchAll (delete_memories c7Store ("alice".data) [1])
      ("bob".data) ("codes".data) none 10 0 = [] :=
  ⟨by decide, by decide, by decide, by decide, by decide⟩

-- ---------------------------------------------------------------------------
-- C6
-- ---------------------------------------------------------------------------

lemma insertComp_perm {α : Type} (bf : α → α → Bool) (x : α) :
    ∀ l : List α, List.Perm (insertComp bf x l) (x :: l) := by
  intro l
  induction l with
  | nil => exact List.Perm.refl _
  | cons y ys ih =>
    unfold insertComp
    split
    · exact List.Perm.refl _
    · exact List.Perm.trans (List.Perm.cons y ih) (List.Perm.swap x y ys)

lemma insSort_perm {α : Type} (bf : α → α → Bool) (l : List α) :
    List.Perm (insSort bf l) l := by
  suffices h : ∀ (xs acc : List α),
      List.Perm (xs.foldl (fun acc x => insertComp bf x acc) acc) (acc ++ xs) by
    simpa using h l []
  intro xs
  induction xs with
  | nil => simp
  | cons x xs ih =>
    intro acc
    simp only [List.foldl_cons]
    refine List.Perm.trans (ih (insertComp bf x acc)) ?_
    refine List.Perm.trans (List.Perm.append_right xs (insertComp_perm bf x acc)) ?_
    exact List.perm_middle.symm

lemma mem_insertComp {α : Type} (bf : α → α → Bool) (x : α) :
    ∀ (l : List α) (z : α), z ∈ insertComp bf x l → z = x ∨ z ∈ l := by
  intro l z hz
  have := (insertComp_perm bf x l).mem_iff.mp hz
  simpa using this

lemma insertComp_pairwise {α : Type} (bf : α → α → Bool)
    (hasym : ∀ a b, bf a b = true → bf b a = false)
    (htrans : ∀ a b c, bf a b = true → bf b c = true → bf a c = true)
    (x : α) : ∀ l : List α, List.Pairwise (fun a b => bf b a = false) l →
      List.Pairwise (fun a b => bf b a = false) (insertComp bf x l) := by
  intro l
  induction l with
  | nil => intro _; simp [insertComp]
  | cons y ys ih =>
    intro hl
    rw [List.pairwise_cons] at hl
    obtain ⟨hy, hys⟩ := hl
    unfold insertComp
    split
    · rename_i hxy
      rw [List.pairwise_cons]
      constructor
      · intro z hz
        rcases List.mem_cons.mp hz with rfl | hz
        · exact hasym x z hxy
        · rw [Bool.eq_false_iff]
          intro hzx
          have := htrans z x y hzx hxy
          rw [hy z hz] at this
          exact Bool.false_ne_true this
      · exact List.pairwise_cons.mpr ⟨hy, hys⟩
    · rename_i hxy
      rw [List.pairwise_cons]
      constructor
      · intro z hz
        rcases mem_insertComp bf x ys z hz with rfl | hz
        · simpa using hxy
        · exact hy z hz
      · exact ih hys

lemma insSort_pairwise {α : Type} (bf : α → α → Bool)
    (hasym : ∀ a b, bf a b = true → bf b a = false)
    (htrans : ∀ a b c, bf a b = true → bf b c = true → bf a c = true)
    (l : List α) :
    List.Pairwise (fun a b => bf b a = false) (insSort bf l) := by
  suffices h : ∀ (xs acc : List α),
      List.Pairwise (fun a b => bf b a = false) acc →
      List.Pairwise (fun a b => bf b a = false)
        (xs.foldl (fun acc x => insertComp bf x acc) acc) by
    exact h l [] (by simp)
  intro xs
  induction xs with
  | nil => exact fun acc h => h
  | cons x xs ih =>
    intro acc hacc
    simp only [List.foldl_cons]
    exact ih _ (insertComp_pairwise bf hasym htrans x acc hacc)

lemma memBefore_asym (a b : MemRow) : memBefore a b = true → memBefore b a = false := by
  simp only [memBefore, Bool.or_eq_true, Bool.and_eq_true, decide_eq_true_eq,
    Bool.or_eq_false_iff, Bool.and_eq_false_iff, decide_eq_false_iff_not]
  intro h
  rcases h with h | ⟨he, hc⟩
  · constructor
    · intro hcon; linarith
    · left; intro hcon; rw [hcon] at h; linarith
  · constructor
    · intro hcon; rw [he] at hcon; linarith
    · right; intro hcon; linarith

lemma memBefore_trans (a b c : MemRow) :
    memBefore a b = true → memBefore b c = true → memBefore a c = true := by
  simp only [memBefore, Bool.or_eq_true, Bool.and_eq_true, decide_eq_true_eq]
  intro hab hbc
  rcases hab with hab | ⟨he1, hc1⟩
  · rcases hbc with hbc | ⟨he2, hc2⟩
    · left; linarith
    · left; linarith
  · rcases hbc with hbc | ⟨he2, hc2⟩
    · left; linarith
    · right; exact ⟨he1.trans he2, by linarith⟩

/-- One access bump of a row. -/
def bumpAccess (now : ℚ) (r : MemRow) : MemRow :=
  { r with access_count := r.access_count + 1, last_accessed := some now }

lemma update_access_mems (st : Store) (i : ℕ) (now : ℚ) :
    (update_memory_access st i now).mems =
      st.mems.map (fun r => if r.id = i then bumpAccess now r else r) := rfl

lemma foldl_updates_mems (now : ℚ) :
    ∀ (ms : List MemRow) (st : Store),
      (ms.map MemRow.id).Nodup → (∀ m ∈ ms, m.id ≠ 0) →
      (ms.foldl (fun s m => if m.id ≠ 0 then update_memory_access s m.id now else s) st).mems
        = st.mems.map
            (fun r => if r.id ∈ ms.map MemRow.id then bumpAccess now r else r) := by
  intro ms
  induction ms with
  | nil =>
    intro st _ _
    simp
  | cons m ms ih =>
    intro st hnd hnz
    simp only [List.map_cons, List.nodup_cons] at hnd
    obtain ⟨hm, hnd'⟩ := hnd
    have hmz : m.id ≠ 0 := hnz m (List.mem_cons_self m ms)
    simp only [List.foldl_cons, if_pos hmz]
    rw [ih (update_memory_access st m.id now) hnd'
      (fun x hx => hnz x (List.mem_cons_of_mem m hx))]
    rw [update_access_mems, List.map_map]
    apply List.map_congr_left
    intro r _
    simp only [Function.comp_apply]
    by_cases h1 : r.id = m.id
    · have hb : (bumpAccess now r).id = r.id := rfl
      rw [if_pos h1]
      rw [if_neg (by rw [hb, h1]; exact hm),
        if_pos (by rw [List.map_cons]; exact h1 ▸ List.mem_cons_self _ _)]
    · rw [if_neg h1]
      by_cases h2 : r.id ∈ ms.map MemRow.id
      · rw [if_pos h2, if_pos (by rw [List.map_cons]; exact List.mem_cons_of_mem _ h2)]
      · rw [if_neg h2, if_neg (by
          rw [List.map_cons]
          intro hcon
          rcases List.mem_cons.mp hcon with h | h
          · exact h1 h
          · exact h2 h)]

/-- C6: storage retrieval returns only rows of the requested agent that pass
the importance floor, the optional type filter and the FTS join, ordered by
importance then creation time descending and truncated to `limit`; the
manager then bumps `access_count` by exactly one and sets `last_accessed`
for precisely the returned ids, leaving every other row unchanged. -/
theorem c6_retrieve_order_filter_access (fm : FtsMatch) (st : Store) (agentId query : List Char)
    (memoryType : Option MemType) (limit : ℕ) (minImportance : ℚ) (now : ℚ)
    (hnd : (st.mems.map MemRow.id).Nodup) (hnz : ∀ r ∈ st.mems, r.id ≠ 0) :
    (∀ m ∈ (manager_retrieve_memories fm st agentId query memoryType limit
        minImportance now).1,
      m.agent_id = agentId ∧ minImportance ≤ m.importance_score ∧
      (∀ t, memoryType = some t → m.memory_type = t) ∧
      st.fts.any (fun f => f.rowid = m.id && fm query f) = true) ∧
    (manager_retrieve_memories fm st agentId query memoryType limit
        minImportance now).1.length ≤ limit ∧
    List.Pairwise (fun a b => memBefore b a = false)
      (manager_retrieve_memories fm st agentId query memoryType limit
        minImportance now).1 ∧
    (manager_retrieve_memories fm st agentId query memoryType limit
        minImportance now).2.mems =
      st.mems.map (fun r =>
        if r.id ∈ (manager_retrieve_memories fm st agentId query memoryType limit
            minImportance now).1.map MemRow.id
        then { r with access_count := r.access_count + 1, last_accessed := some now }
        else r) := by
  have hres1 : (manager_retrieve_memories fm st agentId query memoryType limit
      minImportance now).1 =
      retrieve_memories fm st agentId query memoryType limit minImportance := rfl
  set rows := st.mems.filter (fun m =>
    m.agent_id = agentId && decide (minImportance ≤ m.importance_score) &&
    (match memoryType with
     | none => true
     | some t => m.memory_type = t) &&
    st.fts.any (fun f => f.rowid = m.id && fm query f)) with hrows
  have hret : retrieve_memories fm st agentId query memoryType limit minImportance =
      (insSort memBefore rows).take limit := rfl
  have hmem_rows : ∀ m ∈ retrieve_memories fm st agentId query memoryType limit
      minImportance, m ∈ rows := by
    intro m hm
    rw [hret] at hm
    have h1 : m ∈ insSort memBefore rows := (List.take_sublist _ _).subset hm
    exact (insSort_perm memBefore rows).mem_iff.mp h1
  have hmem_st : ∀ m ∈ rows, m ∈ st.mems := fun m hm => (List.mem_filter.mp hm).1
  refine ⟨?_, ?_, ?_, ?_⟩
  · intro m hm
    rw [hres1] at hm
    have := List.mem_filter.mp (hmem_rows m hm)
    simp only [Bool.and_eq_true, decide_eq_true_eq] at this
    obtain ⟨_, ⟨⟨hagent, himp⟩, htype⟩, hfts⟩ := this
    refine ⟨hagent, himp, ?_, hfts⟩
    intro t ht
    subst ht
    simpa using htype
  · rw [hres1, hret]
    exact List.length_take_le _ _
  · rw [hres1, hret]
    exact ((insSort_pairwise memBefore memBefore_asym memBefore_trans rows).sublist
      (List.take_sublist _ _))
  · have hres2 : (manager_retrieve_memories fm st agentId query memoryType limit
        minImportance now).2 =
        (retrieve_memories fm st agentId query memoryType limit minImportance).foldl
          (fun s m => if m.id ≠ 0 then update_memory_access s m.id now else s) st := rfl
    rw [hres1, hres2]
    have hnd_res : ((retrieve_memories fm st agentId query memoryType limit
        minImportance).map MemRow.id).Nodup := by
      have h0 : (rows.map MemRow.id).Nodup :=
        hnd.sublist ((List.filter_sublist _).map MemRow.id)
      have h1 : ((insSort memBefore rows).map MemRow.id).Nodup :=
        (((insSort_perm memBefore rows).map MemRow.id).nodup_iff).mpr h0
      rw [hret]
      exact h1.sublist ((List.take_sublist _ _).map MemRow.id)
    have hnz_res : ∀ m ∈ retrieve_memories fm st agentId query memoryType limit
        minImportance, m.id ≠ 0 :=
      fun m hm => hnz m (hmem_st m (hmem_rows m hm))
    exact foldl_updates_mems now _ st hnd_res hnz_res

def c6Row : MemRow :=
  ⟨1, "a".data, "s".data, MemType.semantic, "x".data, "x".data, 1, 0, none, 0⟩

def c6St : Store := ⟨[c6Row], [⟨1, "x".data, "x".data⟩]⟩

/-- Witness for C6 on a one-row store with an always-matching FTS semantics. -/
theorem c6_witness :
    ((c6St.mems.map MemRow.id).Nodup) ∧ (∀ r ∈ c6St.mems, r.id ≠ 0) ∧
    (manager_retrieve_memories (fun _ _ => true) c6St ("a".data) ("q".data)
      none 10 0 7).1.length ≤ 10 :=
  ⟨by decide, by decide,
   (c6_retrieve_order_filter_access (fun _ _ => true) c6St ("a".data) ("q".data)
     none 10 0 7 (by decide) (by decide)).2.1⟩

-- ---------------------------------------------------------------------------
-- C9
-- ---------------------------------------------------------------------------

lemma firstOccurrences_ne_nil :
    ∀ (ws acc : List (List Char)), acc ≠ [] →
      ws.foldl (fun acc w => if w ∈ acc then acc else acc ++ [w]) acc ≠ [] := by
  intro ws
  induction ws with
  | nil => exact fun acc h => h
  | cons w ws ih =>
    intro acc h
    simp only [List.foldl_cons]
    split
    · exact ih acc h
    · exact ih (acc ++ [w]) (by simp)

lemma extract_keywords_unfold (text : List Char) (h : text ≠ []) :
    extract_keywords text 5 =
      ((insSort countGT ((firstOccurrences ((findWords text).filter keywordEligible)).map
          (fun w => (w, ((findWords text).filter keywordEligible).count w)))).take 5).map
        (fun p => p.1) := by
  simp only [extract_keywords]
  rw [if_neg h]

lemma extract_keywords_eq_nil_iff (text : List Char) :
    extract_keywords text 5 = [] ↔
      ∀ w ∈ findWords text, w.length ≤ 3 ∨ w ∈ stopWords := by
  rcases eq_or_ne text [] with h | h
  · subst h
    constructor
    · intro _ w hw
      exact absurd hw (by simp [findWords, lowerChars, splitRuns])
    · intro _
      decide
  · rw [extract_keywords_unfold text h]
    constructor
    · intro hnil w hw
      by_contra hcon
      push_neg at hcon
      obtain ⟨hlen, hstop⟩ := hcon
      have helig : keywordEligible w = true := by
        simp only [keywordEligible, Bool.and_eq_true, decide_eq_true_eq]
        exact ⟨hstop, hlen⟩
      have hfil : (findWords text).filter keywordEligible ≠ [] := by
        intro hcon2
        have := List.filter_eq_nil_iff.mp hcon2 w hw
        rw [helig] at this
        simp at this
      have hocc : firstOccurrences ((findWords text).filter keywordEligible) ≠ [] := by
        unfold firstOccurrences
        rcases List.exists_cons_of_ne_nil hfil with ⟨y, ys, hys⟩
        rw [hys]
        simp only [List.foldl_cons]
        split
        · simp_all
        · exact firstOccurrences_ne_nil ys [y] (by simp)
      rcases List.exists_cons_of_ne_nil hocc with ⟨y, ys, hys⟩
      rw [hys] at hnil
      have hsort_ne : insSort countGT ((y :: ys).map
          (fun w => (w, ((findWords text).filter keywordEligible).count w))) ≠ [] := by
        intro hc
        have := (insSort_perm countGT ((y :: ys).map
          (fun w => (w, ((findWords text).filter keywordEligible).count w)))).length_eq
        rw [hc] at this
        simp at this
      rcases List.exists_cons_of_ne_nil hsort_ne with ⟨z, zs, hzs⟩
      rw [hzs] at hnil
      simp [List.take_cons] at hnil
    · intro hall
      have hfil : (findWords text).filter keywordEligible = [] := by
        apply List.filter_eq_nil_iff.mpr
        intro w hw
        simp only [keywordEligible, Bool.and_eq_true, decide_eq_true_eq, not_and]
        intro hnotstop
        rcases hall w hw with hlen | hstop
        · omega
        · exact absurd hstop hnotstop
      rw [hfil]
      rfl

/-- C9: a message yields no extracted keywords exactly when no token longer
than 3 characters survives the stop-word filter; in that case
`retrieve_for_message` performs a full-text search on the raw message with
importance floor 0.4, and otherwise it searches the OR-combined extracted
keywords with the same floor. -/
theorem c9_keyword_fallback (fm : FtsMatch) (st : Store) (now : ℚ) (agentId msg : List Char)
    (limit : ℕ) :
    (extract_keywords msg 5 = [] ↔
      ∀ w ∈ findWords msg, w.length ≤ 3 ∨ w ∈ stopWords) ∧
    (extract_keywords msg 5 = [] →
      retrieve_for_message fm st now agentId msg limit =
        query_engine_search fm st now agentId msg none limit (2/5)) ∧
    (extract_keywords msg 5 ≠ [] →
      retrieve_for_message fm st now agentId msg limit =
        query_engine_search fm st now agentId
          (List.intercalate orSeparator (extract_keywords msg 5)) none limit (2/5)) := by
  refine ⟨extract_keywords_eq_nil_iff msg, ?_, ?_⟩
  · intro h
    unfold retrieve_for_message
    rw [if_pos h]
  · intro h
    unfold retrieve_for_message
    rw [if_neg h]
    unfold search_by_keywords
    rw [if_neg h]

def c9St : Store := ⟨[], []⟩

def c9Msg : List Char := "ok??".data

/-- Witness for C9 on the spec's scenario message "ok??", whose only token
"ok" is too short to be a keyword. -/
theorem c9_witness :
    extract_keywords c9Msg 5 = [] ∧
    retrieve_for_message (fun _ _ => true) c9St 0 ("a".data) c9Msg 3 =
      query_engine_search (fun _ _ => true) c9St 0 ("a".data) c9Msg none 3 (2/5) :=
  ⟨by decide,
   (c9_keyword_fallback (fun _ _ => true) c9St 0 ("a".data) c9Msg 3).2.1 (by decide)⟩

-- ---------------------------------------------------------------------------
-- C8
-- ---------------------------------------------------------------------------

def c8A : Message := ⟨"user".data, "aaaa aaaa aaaa http://x".data, some (-24)⟩

def c8B : Message := ⟨"user".data, "bbbb bbbb bbbb bbbb bbbb".data, some 0⟩

def c8C : Message := ⟨"user".data, "cccc cccc cccc cccc cccc".data, some 0⟩

def c8Cfg : Config := ⟨40, 0, 1, true⟩

noncomputable def c8ScoreA (now : ℚ) : ℝ :=
  calculate_importance_score c8A.content c8A.role (-24) now false

noncomputable def c8ScoreB (now : ℚ) : ℝ :=
  calculate_importance_score c8B.content c8B.role 0 now false

lemma c8_ciA : calculate_content_importance c8A.content = 11/20 := by
  have hk : (highImportanceKeywords.filter
      (fun kw => isSubstr kw (lowerChars c8A.content))).length = 0 := by decide
  simp +decide only [calculate_content_importance, highImportanceKeywords,
    List.foldl, clampQ]
  norm_num

lemma c8_ciB : calculate_content_importance c8B.content = 1/2 := by
  have hk : (highImportanceKeywords.filter
      (fun kw => isSubstr kw (lowerChars c8B.content))).length = 0 := by decide
  simp +decide only [calculate_content_importance, highImportanceKeywords,
    List.foldl, clampQ]
  norm_num

lemma c8_roleUser : roleFactor ("user".data) = 1 := by
  unfold roleFactor
  rw [if_pos (by decide)]

lemma exp_le_one_of_nonpos {x : ℝ} (h : x ≤ 0) : Real.exp x ≤ 1 := by
  have := Real.exp_le_exp.mpr h
  simpa [Real.exp_zero] using this

lemma c8_scoreA_eq (now : ℚ) (h : 0 ≤ now) :
    c8ScoreA now = Real.exp (-(((now + 24 : ℚ) : ℝ)) / 24) * (3/10) + 21/50 := by
  unfold c8ScoreA calculate_importance_score
  rw [c8_ciA, show c8A.role = "user".data from rfl, c8_roleUser,
      show ((now - (-24) : ℚ) : ℝ) = ((now + 24 : ℚ) : ℝ) from by push_cast; ring]
  simp only [Bool.false_eq_true, if_false]
  have hcast : (0:ℝ) ≤ ((now + 24 : ℚ) : ℝ) := by
    rw [← Rat.cast_zero, Rat.cast_le]
    linarith
  have hpos : (0:ℝ) < Real.exp (-(((now + 24 : ℚ) : ℝ)) / 24) := Real.exp_pos _
  have hle : Real.exp (-(((now + 24 : ℚ) : ℝ)) / 24) ≤ 1 :=
    exp_le_one_of_nonpos (by linarith)
  push_cast at hpos hle ⊢
  rw [min_eq_right (by linarith), max_eq_right (by linarith)]
  ring

lemma c8_scoreB_eq (now : ℚ) (h : 0 ≤ now) :
    c8ScoreB now = Real.exp (-((now : ℚ) : ℝ) / 24) * (3/10) + 2/5 := by
  unfold c8ScoreB calculate_importance_score
  rw [c8_ciB, show c8B.role = "user".data from rfl, c8_roleUser,
      show ((now - 0 : ℚ) : ℝ) = ((now : ℚ) : ℝ) from by push_cast; ring]
  simp only [Bool.false_eq_true, if_false]
  have hcast : (0:ℝ) ≤ ((now : ℚ) : ℝ) := by
    rw [← Rat.cast_zero, Rat.cast_le]
    linarith
  have hpos : (0:ℝ) < Real.exp (-((now : ℚ) : ℝ) / 24) := Real.exp_pos _
  have hle : Real.exp (-((now : ℚ) : ℝ) / 24) ≤ 1 :=
    exp_le_one_of_nonpos (by linarith)
  push_cast at hpos hle ⊢
  rw [min_eq_right (by linarith), max_eq_right (by linarith)]
  ring

lemma c8_flip0 : c8ScoreA 0 < c8ScoreB 0 := by
  rw [c8_scoreA_eq 0 le_rfl, c8_scoreB_eq 0 le_rfl]
  have h9 := Real.exp_neg_one_lt_d9
  norm_num [Real.exp_zero]
  nlinarith [h9]

lemma c8_flip240 : c8ScoreB 240 < c8ScoreA 240 := by
  rw [c8_scoreA_eq 240 (by norm_num), c8_scoreB_eq 240 (by norm_num)]
  have h1 : Real.exp (-10 : ℝ) = Real.exp (-1 : ℝ) ^ (10 : ℕ) := by
    rw [show (-10:ℝ) = ((10:ℕ) : ℝ) * (-1) from by norm_num, Real.exp_nat_mul]
  have h2 : Real.exp (-1:ℝ) < 1/2 :=
    lt_trans Real.exp_neg_one_lt_d9 (by norm_num)
  have h3 : Real.exp (-1:ℝ) ^ (10:ℕ) < (1/2:ℝ) ^ (10:ℕ) :=
    pow_lt_pow_left₀ h2 (le_of_lt (Real.exp_pos _)) (by norm_num)
  have h4 : Real.exp (-10:ℝ) < 1/1024 := by
    rw [h1]
    calc Real.exp (-1:ℝ) ^ (10:ℕ) < (1/2:ℝ) ^ (10:ℕ) := h3
    _ = 1/1024 := by norm_num
  have h5 : (0:ℝ) < Real.exp (-11 : ℝ) := Real.exp_pos _
  norm_num
  nlinarith [h4, h5]

lemma c8_gt0 : scoreGT (1, c8ScoreB 0) (0, c8ScoreA 0) = true := by
  unfold scoreGT
  exact if_pos c8_flip0

lemma c8_gt240 : scoreGT (1, c8ScoreB 240) (0, c8ScoreA 240) = false := by
  unfold scoreGT
  exact if_neg (not_lt.mpr (le_of_lt c8_flip240))

def c8Msgs : List Message := [c8A, c8B, c8C]

lemma c8_scored (now : ℚ) :
    (c8Msgs.enum.filter
        (fun p => !protectedPair true 1 c8Msgs.length p)).map (fun p =>
      (p.1, calculate_importance_score p.2.content p.2.role
        (p.2.timestamp.getD now) now false)) =
      [(0, c8ScoreA now), (1, c8ScoreB now)] := by
  rw [show c8Msgs.enum.filter (fun p => !protectedPair true 1 c8Msgs.length p)
      = [(0, c8A), (1, c8B)] from by decide]
  rfl

lemma c8_sort0 :
    insSort scoreGT [(0, c8ScoreA 0), (1, c8ScoreB 0)] =
      [(1, c8ScoreB 0), (0, c8ScoreA 0)] := by
  show insertComp scoreGT (1, c8ScoreB 0) (insertComp scoreGT (0, c8ScoreA 0) []) =
    [(1, c8ScoreB 0), (0, c8ScoreA 0)]
  rw [show insertComp scoreGT (0, c8ScoreA 0) [] = [(0, c8ScoreA 0)] from rfl]
  unfold insertComp
  rw [c8_gt0]
  simp

lemma c8_sort240 :
    insSort scoreGT [(0, c8ScoreA 240), (1, c8ScoreB 240)] =
      [(0, c8ScoreA 240), (1, c8ScoreB 240)] := by
  show insertComp scoreGT (1, c8ScoreB 240) (insertComp scoreGT (0, c8ScoreA 240) []) =
    [(0, c8ScoreA 240), (1, c8ScoreB 240)]
  rw [show insertComp scoreGT (0, c8ScoreA 240) [] = [(0, c8ScoreA 240)] from rfl]
  unfold insertComp
  rw [c8_gt240]
  simp [insertComp]

lemma c8_sel0 : select_messages_to_prune 0 c8Msgs 2 1 true = [0] := by
  simp only [select_messages_to_prune]
  rw [if_neg (show ¬ (c8Msgs.length ≤ 2) from by decide),
    if_neg (show ¬((((2:ℕ)):ℤ) -
      ((c8Msgs.enum.filter (protectedPair true 1 c8Msgs.length)).length : ℤ) ≤ 0)
      from by decide),
    if_neg (show ¬(c8Msgs.enum.filter
      (fun p => !protectedPair true 1 c8Msgs.length p) = []) from by decide),
    c8_scored 0, c8_sort0]
  rfl

lemma c8_sel240 : select_messages_to_prune 240 c8Msgs 2 1 true = [1] := by
  simp only [select_messages_to_prune]
  rw [if_neg (show ¬ (c8Msgs.length ≤ 2) from by decide),
    if_neg (show ¬((((2:ℕ)):ℤ) -
      ((c8Msgs.enum.filter (protectedPair true 1 c8Msgs.length)).length : ℤ) ≤ 0)
      from by decide),
    if_neg (show ¬(c8Msgs.enum.filter
      (fun p => !protectedPair true 1 c8Msgs.length p) = []) from by decide),
    c8_scored 240, c8_sort240]
  rfl

lemma c8_prunedAt2_0 : prunedAt c8Cfg 0 c8Msgs 2 = [c8B, c8C] := by
  unfold prunedAt
  rw [show c8Cfg.alwaysKeepRecent = 1 from rfl, show c8Cfg.alwaysKeepSystem = true from rfl,
    c8_sel0]
  decide

lemma c8_prunedAt2_240 : prunedAt c8Cfg 240 c8Msgs 2 = [c8A, c8C] := by
  unfold prunedAt
  rw [show c8Cfg.alwaysKeepRecent = 1 from rfl, show c8Cfg.alwaysKeepSystem = true from rfl,
    c8_sel240]
  decide

lemma c8_best0 :
    firstFit (fun k => decide
      ((estimate_tokens_for_messages (prunedAt c8Cfg 0 c8Msgs k) : ℤ)
        ≤ c8Cfg.effectiveMaxTokens))
      (countdown c8Msgs.length (c8Cfg.alwaysKeepRecent + countSystem c8Msgs))
      (c8Cfg.alwaysKeepRecent + countSystem c8Msgs) = 2 := by
  rw [show countdown c8Msgs.length (c8Cfg.alwaysKeepRecent + countSystem c8Msgs)
    = [3, 2, 1] from by decide]
  simp only [firstFit]
  rw [show decide ((estimate_tokens_for_messages (prunedAt c8Cfg 0 c8Msgs 3) : ℤ)
      ≤ c8Cfg.effectiveMaxTokens) = false from by decide]
  rw [show decide ((estimate_tokens_for_messages (prunedAt c8Cfg 0 c8Msgs 2) : ℤ)
      ≤ c8Cfg.effectiveMaxTokens) = true from by rw [c8_prunedAt2_0]; decide]
  simp

lemma c8_best240 :
    firstFit (fun k => decide
      ((estimate_tokens_for_messages (prunedAt c8Cfg 240 c8Msgs k) : ℤ)
        ≤ c8Cfg.effectiveMaxTokens))
      (countdown c8Msgs.length (c8Cfg.alwaysKeepRecent + countSystem c8Msgs))
      (c8Cfg.alwaysKeepRecent + countSystem c8Msgs) = 2 := by
  rw [show countdown c8Msgs.length (c8Cfg.alwaysKeepRecent + countSystem c8Msgs)
    = [3, 2, 1] from by decide]
  simp only [firstFit]
  rw [show decide ((estimate_tokens_for_messages (prunedAt c8Cfg 240 c8Msgs 3) : ℤ)
      ≤ c8Cfg.effectiveMaxTokens) = false from by decide]
  rw [show decide ((estimate_tokens_for_messages (prunedAt c8Cfg 240 c8Msgs 2) : ℤ)
      ≤ c8Cfg.effectiveMaxTokens) = true from by rw [c8_prunedAt2_240]; decide]
  simp

lemma c8_prune0 : prune_messages c8Cfg 0 c8Msgs = ([c8B, c8C], 1) := by
  simp only [prune_messages]
  rw [if_neg (show ¬ (c8Msgs = []) from by decide)]
  rw [if_neg (show ¬ ¬ (c8Cfg.effectiveMaxTokens <
    (estimate_tokens_for_messages c8Msgs : ℤ)) from by decide)]
  rw [c8_best0]
  rw [show c8Cfg.alwaysKeepRecent = 1 from rfl, show c8Cfg.alwaysKeepSystem = true from rfl,
    c8_sel0]
  decide

lemma c8_prune240 : prune_messages c8Cfg 240 c8Msgs = ([c8A, c8C], 1) := by
  simp only [prune_messages]
  rw [if_neg (show ¬ (c8Msgs = []) from by decide)]
  rw [if_neg (show ¬ ¬ (c8Cfg.effectiveMaxTokens <
    (estimate_tokens_for_messages c8Msgs : ℤ)) from by decide)]
  rw [c8_best240]
  rw [show c8Cfg.alwaysKeepRecent = 1 from rfl, show c8Cfg.alwaysKeepSystem = true from rfl,
    c8_sel240]
  decide

lemma c8_prepare0 : (prepare_context c8Cfg 0 c8Msgs []).total_tokens = 39 := by
  simp only [prepare_context]
  rw [if_pos (show c8Cfg.effectiveMaxTokens <
    (estimate_tokens_for_messages c8Msgs : ℤ) from by decide)]
  rw [c8_prune0]
  decide

lemma c8_prepare240 : (prepare_context c8Cfg 240 c8Msgs []).total_tokens = 38 := by
  simp only [prepare_context]
  rw [if_pos (show c8Cfg.effectiveMaxTokens <
    (estimate_tokens_for_messages c8Msgs : ℤ) from by decide)]
  rw [c8_prune240]
  decide

lemma snd_mem_of_mem_enumFrom {α : Type} :
    ∀ (n : ℕ) (l : List α) (p : ℕ × α), p ∈ List.enumFrom n l → p.2 ∈ l := by
  intro n l
  induction l generalizing n with
  | nil => simp [List.enumFrom]
  | cons a l ih =>
    intro p hp
    simp only [List.enumFrom, List.mem_cons] at hp
    rcases hp with rfl | hp
    · exact List.mem_cons_self _ _
    · exact List.mem_cons_of_mem _ (ih (n+1) p hp)

lemma score_at_own_time (c r : List Char) (t : ℚ) (b : Bool) :
    calculate_importance_score c r t t b =
      max 0 (min 1 ((3/10) + (calculate_content_importance c : ℝ) * (4/10) +
        (if b then (1:ℝ) else 1/2) * (2/10) + roleFactor r * (1/10))) := by
  unfold calculate_importance_score
  rw [show ((t - t : ℚ) : ℝ) = 0 from by push_cast; ring]
  norm_num [Real.exp_zero]

lemma select_now_indep (now₁ now₂ : ℚ) (msgs : List Message) (k akr : ℕ) (aks : Bool)
    (h : ∀ m ∈ msgs, m.timestamp = none) :
    select_messages_to_prune now₁ msgs k akr aks =
      select_messages_to_prune now₂ msgs k akr aks := by
  have hmap : ∀ now : ℚ,
      (msgs.enum.filter (fun p => !protectedPair aks akr msgs.length p)).map (fun p =>
        (p.1, calculate_importance_score p.2.content p.2.role
          (p.2.timestamp.getD now) now false)) =
      (msgs.enum.filter (fun p => !protectedPair aks akr msgs.length p)).map (fun p =>
        (p.1, max 0 (min 1 ((3/10) + (calculate_content_importance p.2.content : ℝ) * (4/10) +
          (1/2 : ℝ) * (2/10) + roleFactor p.2.role * (1/10))))) := by
    intro now
    apply List.map_congr_left
    intro p hp
    have hmem : p.2 ∈ msgs := by
      have := (List.mem_filter.mp hp).1
      rw [List.enum] at this
      exact snd_mem_of_mem_enumFrom 0 msgs p this
    rw [h p.2 hmem]
    rw [show (Option.getD (none : Option ℚ) now) = now from rfl]
    rw [score_at_own_time]
    norm_num
  simp only [select_messages_to_prune]
  rw [hmap now₁, hmap now₂]

lemma prune_now_indep (cfg : Config) (now₁ now₂ : ℚ) (msgs : List Message)
    (h : ∀ m ∈ msgs, m.timestamp = none) :
    prune_messages cfg now₁ msgs = prune_messages cfg now₂ msgs := by
  have hsel : ∀ k, select_messages_to_prune now₁ msgs k cfg.alwaysKeepRecent
      cfg.alwaysKeepSystem = select_messages_to_prune now₂ msgs k cfg.alwaysKeepRecent
      cfg.alwaysKeepSystem :=
    fun k => select_now_indep now₁ now₂ msgs k cfg.alwaysKeepRecent cfg.alwaysKeepSystem h
  have hpred : (fun k => decide
      ((estimate_tokens_for_messages (prunedAt cfg now₁ msgs k) : ℤ)
        ≤ cfg.effectiveMaxTokens)) = (fun k => decide
      ((estimate_tokens_for_messages (prunedAt cfg now₂ msgs k) : ℤ)
        ≤ cfg.effectiveMaxTokens)) := by
    funext k
    unfold prunedAt
    rw [hsel k]
  simp only [prune_messages]
  rw [hpred, hsel]

lemma prepare_now_indep (cfg : Config) (now₁ now₂ : ℚ) (msgs : List Message)
    (mems : List (List Char)) (h : ∀ m ∈ msgs, m.timestamp = none) :
    prepare_context cfg now₁ msgs mems = prepare_context cfg now₂ msgs mems := by
  simp only [prepare_context]
  rw [prune_now_indep cfg now₁ now₂ msgs h]

/-- C8 (amended): token estimation and `should_prune` depend on nothing but
their arguments, and `prepare_context` is independent of the wall-clock
instant it reads whenever every message lacks a timestamp — two calls with
equal inputs then return equal windows.  (With timestamps present the clock
leaks into the output; see the counterexample.) -/
theorem c8_deterministic_without_timestamps (cfg : Config) (msgs : List Message)
    (mems : List (List Char)) (now₁ now₂ : ℚ)
    (h : ∀ m ∈ msgs, m.timestamp = none) :
    prepare_context cfg now₁ msgs mems = prepare_context cfg now₂ msgs mems ∧
    (should_prune cfg msgs ↔
      cfg.effectiveMaxTokens < (estimate_tokens_for_messages msgs : ℤ)) :=
  ⟨prepare_now_indep cfg now₁ now₂ msgs mems h, Iff.rfl⟩

/-- Witness for C8 on a timestamp-free message list and two clock values. -/
theorem c8_witness :
    (∀ m ∈ [(⟨"user".data, "hi".data, none⟩ : Message)], m.timestamp = none) ∧
    prepare_context c8Cfg 0 [(⟨"user".data, "hi".data, none⟩ : Message)] [] =
      prepare_context c8Cfg 5 [(⟨"user".data, "hi".data, none⟩ : Message)] [] :=
  ⟨by decide,
   (c8_deterministic_without_timestamps c8Cfg
     [(⟨"user".data, "hi".data, none⟩ : Message)] [] 0 5 (by decide)).1⟩

/-- C8 (counterexample): with timestamped messages, `prepare_context` is not a
pure function of the message list — the same three messages prune differently
when the clock reads 0 hours versus 240 hours, because recency decay reorders
the importance scores. -/
theorem c8_clock_dependence_counterexample :
    (∀ m ∈ c8Msgs, m.timestamp ≠ none) ∧
    (prepare_context c8Cfg 0 c8Msgs []).total_tokens = 39 ∧
    (prepare_context c8Cfg 240 c8Msgs []).total_tokens = 38 ∧
    prepare_context c8Cfg 0 c8Msgs [] ≠ prepare_context c8Cfg 240 c8Msgs [] := by
  refine ⟨by decide, c8_prepare0, c8_prepare240, ?_⟩
  intro hcon
  have h2 := congrArg ContextWindow.total_tokens hcon
  rw [c8_prepare0, c8_prepare240] at h2
  exact absurd h2 (by decide)
